import Mathlib

/-!
Verification development for the CDA downloader repository.

The definitions below are a shallow embedding of the Python source:

* `src/utils/helpers.py` — `parse_quality_from_string`, `sort_qualities`;
* `src/core/video_info.py` — `VideoInfo.get_best_quality`;
* `src/core/downloader.py` — `DownloaderService.download` (its exception
  wrapping) and `DownloaderService._select_quality`;
* `src/core/search.py` — `SearchService._parse_search_results`;
* `src/core/auth.py` — `AuthService.login`, `AuthService.logout`;
* `src/cli/cli_handler.py` — `CLIHandler._download_all_from_results` and
  `CLIHandler._download_folder`.

Python strings are modelled as Lean `String` / `List Char` (the labels,
usernames and markup fragments in play are ASCII, so `Char.toLower` and
`Char.isDigit` coincide with Python `str.lower` / regex `\d` on them).
Python dicts (insertion ordered) are modelled as association lists.
Network effects are modelled by passing each request outcome in as an
explicit `Except` value.
-/

/-! ## String machinery: Python `in` (substring test), `startswith`, `lower` -/

/-- Python `s.startswith(t)` on character lists: `beginsWith t s` is true
when `t` is an initial segment of `s`. -/
def beginsWith : List Char → List Char → Bool
  | [], _ => true
  | _ :: _, [] => false
  | a :: as, b :: bs => a == b && beginsWith as bs

/-- Python `needle in hay` for strings: contiguous-substring test. -/
def containsSub (needle : List Char) : List Char → Bool
  | [] => beginsWith needle []
  | c :: t => beginsWith needle (c :: t) || containsSub needle t

/-- Python `s.lower()` restricted to ASCII: character list of `s`, lowered. -/
def lowerChars (s : String) : List Char := s.toList.map Char.toLower

/-- Specification-level statement that `needle` occurs contiguously in `hay`. -/
def Substr (needle hay : List Char) : Prop := ∃ p t, hay = p ++ needle ++ t

theorem beginsWith_iff (n h : List Char) :
    beginsWith n h = true ↔ ∃ t, h = n ++ t := by
  induction n generalizing h with
  | nil => simp [beginsWith]
  | cons a as ih =>
    cases h with
    | nil =>
      simp only [beginsWith, Bool.false_eq_true, false_iff]
      rintro ⟨t, ht⟩
      exact List.noConfusion ht
    | cons b bs =>
      simp only [beginsWith, Bool.and_eq_true, beq_iff_eq, ih]
      constructor
      · rintro ⟨hab, t, ht⟩
        exact ⟨t, by simp [hab, ht]⟩
      · rintro ⟨t, ht⟩
        obtain ⟨h1, h2⟩ := List.cons_eq_cons.mp (by simpa using ht)
        exact ⟨h1.symm, t, h2⟩

theorem containsSub_iff (n h : List Char) :
    containsSub n h = true ↔ Substr n h := by
  induction h with
  | nil =>
    simp only [containsSub, beginsWith_iff, Substr]
    constructor
    · rintro ⟨t, ht⟩
      exact ⟨[], t, by simpa using ht⟩
    · rintro ⟨p, t, ht⟩
      have hp : p = [] := by
        cases p with
        | nil => rfl
        | cons x xs => exact absurd ht (by simp)
      exact ⟨t, by simpa [hp] using ht⟩
  | cons c t ih =>
    simp only [containsSub, Bool.or_eq_true, beginsWith_iff, ih, Substr]
    constructor
    · rintro (⟨s, hs⟩ | ⟨p, s, hs⟩)
      · exact ⟨[], s, by simpa using hs⟩
      · exact ⟨c :: p, s, by simp [hs]⟩
    · rintro ⟨p, s, hs⟩
      cases p with
      | nil => exact Or.inl ⟨s, by simpa using hs⟩
      | cons x xs =>
        right
        obtain ⟨h1, h2⟩ := List.cons_eq_cons.mp (by simpa using hs)
        exact ⟨xs, s, by simp [h2]⟩

theorem containsSub_eq_false_iff (n h : List Char) :
    containsSub n h = false ↔ ¬ Substr n h := by
  rw [← containsSub_iff n h]
  cases containsSub n h <;> simp

/-! ## Error taxonomy (`src/utils/exceptions.py`, plus Python built-ins)

`keyError` models Python `KeyError`; `keyboardInterrupt` models
`KeyboardInterrupt` (a `BaseException`, so not caught by
`except Exception`). -/

inductive PyErr
  | authenticationError
  | tokenError
  | videoInfoError
  | downloadError
  | searchError
  | fileError
  | keyError
  | keyboardInterrupt
  deriving DecidableEq

/-! ## `helpers.parse_quality_from_string` and `helpers.sort_qualities` -/

/-- Numeric value of a list of decimal digit characters. -/
def natOfDigits (ds : List Char) : Nat :=
  ds.foldl (fun a c => a * 10 + (c.toNat - '0'.toNat)) 0

/-- Model of `re.search(r'(\d+)', s)`: the first maximal run of decimal digits of
`s`, if any (ASCII digits; the labels in play are ASCII). -/
def firstDigitRun : List Char → Option (List Char)
  | [] => none
  | c :: t => if c.isDigit then some (List.takeWhile Char.isDigit (c :: t))
              else firstDigitRun t

/-- The fixed table of `parse_quality_from_string`, in its Python dict
insertion order (the order the `for key, value in quality_map.items()`
loop scans it). -/
def qualityTable : List (String × Nat) :=
  [("hd", 720), ("fhd", 1080), ("qhd", 1440), ("uhd", 2160),
   ("4k", 2160), ("sd", 480), ("ld", 360)]

/-- The containment scan `for key, value in quality_map.items(): if key in
lower_quality: return value`, with fall-through value `0`. -/
def tableRank (lower : List Char) : List (String × Nat) → Nat
  | [] => 0
  | (k, v) :: rest => if containsSub k.toList lower then v else tableRank lower rest

/-- Model of `helpers.parse_quality_from_string`: first digit run if present, else
the ordered containment scan of the fixed table, else 0. -/
def parse_quality_from_string (q : String) : Nat :=
  match firstDigitRun q.toList with
  | some run => natOfDigits run
  | none => tableRank (q.toList.map Char.toLower) qualityTable

/-- Stable descending insertion by the numeric component: the element is
placed before the first strictly smaller key, after all earlier elements
with an equal key.  `sorted(..., key=..., reverse=True)` in Python is a
stable descending sort, whose output this insertion sort reproduces. -/
def insertDesc (x : String × Nat) : List (String × Nat) → List (String × Nat)
  | [] => [x]
  | y :: ys => if y.2 < x.2 then x :: y :: ys else y :: insertDesc x ys

/-- Model of `helpers.sort_qualities`: pair each label with its rank, stable-sort
descending by rank, return the labels. -/
def sort_qualities (qs : List String) : List String :=
  (((qs.map fun q => (q, parse_quality_from_string q)).foldl
      (fun acc x => insertDesc x acc) []).map Prod.fst)

example : parse_quality_from_string "FHD" = 720 := by decide
example : parse_quality_from_string "1080p" = 1080 := by decide
example : parse_quality_from_string "mystery" = 0 := by decide
example : sort_qualities ["480p", "720p", "720"] = ["720p", "720", "480p"] := by decide

/-! ## `video_info.VideoInfo.get_best_quality`

A Python dict (insertion ordered, unique keys) is modelled as an
association list; indexing is first-match lookup. -/

/-- Dict indexing `d[k]` and membership `k in d` on the association-list model. -/
def dictLookup (links : List (String × String)) (k : String) : Option String :=
  (links.find? fun p => p.1 == k).map Prod.snd

/-- Model of `VideoInfo.get_best_quality`: empty map fails with `VideoInfoError`;
otherwise sort the keys by rank descending and index the dict at the head.
The `keyError` branch models the `KeyError` Python would raise if the head
were not a key (unreachable: the head comes from the key list). -/
def get_best_quality (links : List (String × String)) :
    Except PyErr (String × String) :=
  if links.isEmpty then .error .videoInfoError
  else
    match sort_qualities (links.map Prod.fst) with
    | [] => .error .videoInfoError
    | best :: _ =>
      match dictLookup links best with
      | some url => .ok (best, url)
      | none => .error .keyError

/-! ## `downloader.DownloaderService` -/

namespace DownloaderService

/-- Model of `DownloaderService._select_quality`: with a truthy preferred label, try
exact dict membership, then the first key containing the label as a
substring, then fall back to `get_best_quality`.  Python `if
preferred_quality:` is false for `None` and for the empty string. -/
def select_quality (links : List (String × String)) :
    Option String → Except PyErr (String × String)
  | some p =>
    if p = "" then get_best_quality links
    else
      match dictLookup links p with
      | some u => .ok (p, u)
      | none =>
        match links.find? fun q => containsSub p.toList q.1.toList with
        | some qu => .ok qu
        | none => get_best_quality links
  | none => get_best_quality links

/-- The `except Exception as e: raise DownloadError(...)` wrapper of
`DownloaderService.download`: every exception of the resolution/transfer
pipeline (`AuthenticationError`, `VideoInfoError`, `FileError`, ...) is
re-raised as `DownloadError`; only `KeyboardInterrupt` (a `BaseException`,
not an `Exception`) passes through. -/
def download (pipeline : Except PyErr Unit) : Except PyErr Unit :=
  match pipeline with
  | .ok u => .ok u
  | .error .keyboardInterrupt => .error .keyboardInterrupt
  | .error _ => .error .downloadError

end DownloaderService

/-! ## `auth.AuthService` -/

/-- The authentication state of `AuthService`: the `logged_in` flag and the
recorded `username`. -/
structure AuthState where
  logged_in : Bool
  username : Option String
  deriving DecidableEq

/-- The fresh state of a newly constructed `AuthService`. -/
def anonymous : AuthState := ⟨false, none⟩

namespace AuthService

/-- The login success heuristic of `AuthService.login`:
`"premium" in response.text.lower() and username.lower() in
response.text.lower()`. -/
def loginSuccessCheck (body user : String) : Bool :=
  containsSub "premium".toList (lowerChars body) &&
  containsSub (lowerChars user) (lowerChars body)

/-- Specification-level version of the success heuristic: the response
body contains both the premium marker and the username, case-insensitively. -/
def LoginOk (body user : String) : Prop :=
  Substr "premium".toList (lowerChars body) ∧
  Substr (lowerChars user) (lowerChars body)

theorem loginSuccessCheck_iff (body user : String) :
    loginSuccessCheck body user = true ↔ LoginOk body user := by
  simp [loginSuccessCheck, LoginOk, Bool.and_eq_true, containsSub_iff]

/-- Model of `AuthService.login`.  `tokenRes` is the outcome of `get_csrf_token`
(`TokenError` propagates unchanged), `postRes` the outcome of the login
POST together with `raise_for_status` (a transport error becomes
`AuthenticationError`), carrying the response body on success. -/
def login (st : AuthState) (user _password : String)
    (tokenRes : Except Unit String) (postRes : Except Unit String) :
    Except PyErr (AuthState × Bool) :=
  if st.logged_in then .ok (st, true)
  else
    match tokenRes with
    | .error _ => .error .tokenError
    | .ok _token =>
      match postRes with
      | .error _ => .error .authenticationError
      | .ok body =>
        if loginSuccessCheck body user then
          .ok ({ logged_in := true, username := some user }, true)
        else
          .ok (st, false)

/-- Model of `AuthService.logout`.  `req` is the outcome of the logout GET together
with `raise_for_status`; a transport failure is logged and reported as
`False` without touching the state. -/
def logout (st : AuthState) (req : Except Unit Unit) : AuthState × Bool :=
  if st.logged_in then
    match req with
    | .error _ => (st, false)
    | .ok _ => (⟨false, none⟩, true)
  else (st, true)

end AuthService

example :
    AuthService.login anonymous "alice" "pw" (.ok "tok") (.ok "Premium konto: Alice") =
      .ok (⟨true, some "alice"⟩, true) := rfl
example :
    AuthService.login anonymous "alice" "pw" (.ok "tok") (.ok "Zaloguj sie") =
      .ok (anonymous, false) := rfl

/-! ## `search.SearchService._parse_search_results`

The HTML is modelled at selector granularity: a candidate item container
(`div.video-clip-wrapper` / `div.video-clip` / `div.video-cover`) is a
record holding, for each CSS selector the parser consults, the element it
resolves to (if any).  An element carries its text and the attributes the
parser reads. -/

/-- An HTML element as seen by the parser: its text content and the
`href` / `src` / `data-src` attributes. -/
structure Elem where
  text : String := ""
  href : Option String := none
  src : Option String := none
  dataSrc : Option String := none
  deriving DecidableEq

/-- One candidate item container, by the selectors
`SearchService._parse_search_results` consults on it. -/
structure Container where
  /-- Selector `a.link-title` (first title selector and first URL selector). -/
  linkTitle : Option Elem := none
  /-- Selector `span.title` (second title selector). -/
  spanTitle : Option Elem := none
  /-- Selector `div.text-container h3` (third title selector). -/
  textContainerH3 : Option Elem := none
  /-- Selector `a.thumbnail` (second URL selector). -/
  aThumbnail : Option Elem := none
  /-- Selector `a.link` (third URL selector). -/
  aLink : Option Elem := none
  /-- Whether `.premium-icon, .label-premium` resolves. -/
  premiumBadge : Bool := false
  /-- Selector `img`. -/
  img : Option Elem := none
  /-- Selector `.duration`. -/
  durationElem : Option Elem := none
  /-- Selector `.user-name`. -/
  userNameElem : Option Elem := none
  /-- Selector `.views`. -/
  viewsElem : Option Elem := none
  deriving DecidableEq

/-- Model of `search.SearchResult` (the listing record). -/
structure SearchResult where
  title : String
  url : Option String
  thumbnail : Option String := none
  duration : Option String := none
  author : Option String := none
  views : Option String := none
  premium : Bool := false
  deriving DecidableEq

/-- A listing page: whether the login-wall marker
(`.login-premium-requied`) is present, and the candidate item containers
in document order. -/
structure ListingPage where
  loginWall : Bool
  containers : List Container
  deriving DecidableEq

/-- Value of `config.base_url`. -/
def base_url : String := "https://www.cda.pl"

/-- Python `s.strip()`: drop whitespace from both ends (kernel-computable
replacement for `String.trim`). -/
def pyStrip (s : String) : String :=
  ⟨((s.toList.dropWhile Char.isWhitespace).reverse.dropWhile Char.isWhitespace).reverse⟩

/-- Python `a or b` on optional strings: `None` and `""` are falsy. -/
def pyOrStr (a b : Option String) : Option String :=
  match a with
  | some s => if s = "" then b else some s
  | none => b

namespace SearchService

/-- The ordered title fallback: `a.link-title` or `span.title` or
`div.text-container h3`. -/
def titleElement (c : Container) : Option Elem :=
  (c.linkTitle <|> c.spanTitle) <|> c.textContainerH3

/-- The ordered URL fallback: `a.link-title` or `a.thumbnail` or `a.link`. -/
def urlElement (c : Container) : Option Elem :=
  (c.linkTitle <|> c.aThumbnail) <|> c.aLink

/-- The per-container body of the parsing loop: a container yields a
record only when both a title element and a URL element resolve
(`if title_element and url_element:`); a relative URL (truthy and not
starting with `http`) is prefixed with the base origin; the optional
fields are best-effort. -/
def parseElement (c : Container) : Option SearchResult :=
  match titleElement c, urlElement c with
  | some te, some ue =>
    some
      { title := pyStrip te.text
        url :=
          match ue.href with
          | some u =>
            some (if u = "" then u
                  else if beginsWith "http".toList u.toList then u
                  else base_url ++ u)
          | none => none
        thumbnail :=
          match c.img with
          | some im => pyOrStr im.src im.dataSrc
          | none => none
        duration := c.durationElem.map fun e => pyStrip e.text
        author := c.userNameElem.map fun e => pyStrip e.text
        views := c.viewsElem.map fun e => pyStrip e.text
        premium := c.premiumBadge }
  | _, _ => none

/-- Model of `SearchService._parse_search_results`: a page carrying the login-wall
marker fails as a whole with `AuthenticationError`; otherwise every
container that resolves both a title and a URL contributes one record, in
document order, and the others are skipped (the per-container
`try/except` makes a malformed container non-fatal). -/
def parse_search_results (p : ListingPage) : Except PyErr (List SearchResult) :=
  if p.loginWall then .error .authenticationError
  else .ok (p.containers.filterMap parseElement)

end SearchService

example :
    SearchService.parseElement { spanTitle := some { text := "Film" } } = none := rfl
example :
    SearchService.parseElement
      { linkTitle := some { text := " Film ", href := some "/video/abc" } } =
      some { title := "Film", url := some "https://www.cda.pl/video/abc" } := by decide

/-! ## `cli_handler.CLIHandler`

One listing record together with the outcome its resolution/transfer
pipeline (`get_video_info`, quality selection, `_download_file`) would
have inside `DownloaderService.download`. -/

deriving instance DecidableEq for Except

structure BatchItem where
  premium : Bool := false
  resolveOutcome : Except PyErr Unit := .ok ()
  deriving DecidableEq

namespace CLIHandler

/-- The exception classes the per-item `except (VideoInfoError,
DownloadError, FileError)` clause of `_download_all_from_results`
catches. -/
def caughtPerItem : PyErr → Bool
  | .videoInfoError | .downloadError | .fileError => true
  | _ => false

/-- The item loop of `_download_all_from_results`: each item is passed to
`DownloaderService.download`; a caught failure increments the skipped
counter and the loop continues; any other exception propagates (the
`finally` block still runs, see `download_all_from_results`). -/
def batchLoop : List BatchItem → Nat → Nat → Except PyErr (Nat × Nat)
  | [], d, s => .ok (d, s)
  | it :: rest, d, s =>
    match DownloaderService.download it.resolveOutcome with
    | .ok _ => batchLoop rest (d + 1) s
    | .error e => if caughtPerItem e then batchLoop rest d (s + 1) else .error e

/-- Model of `CLIHandler._download_all_from_results`.  `dir` is the shared
`downloader_service.download_dir` configuration on entry; the returned
`String` is its value after the call.  With an override, the original
value is saved, the override installed, and the `finally` block restores
the saved value on every exit path, normal or exceptional.  An empty
result list returns before the override is installed. -/
def download_all_from_results (dir : String) (items : List BatchItem)
    (override : Option String) : String × Except PyErr (Nat × Nat) :=
  if items.isEmpty then (dir, .ok (0, 0))
  else
    let activeDir := match override with
      | some d => d        -- downloads of this batch write here
      | none => dir
    let result := batchLoop items 0 0
    -- `finally`: restore the saved original when an override was installed.
    let finalDir := match override with
      | some _ => dir
      | none => activeDir
    (finalDir, result)

/-- Model of `CLIHandler._download_folder`.  `fetch page` is the outcome of
`search_in_folder(folder_id, page)` (a transport failure is a
`SearchError`, a login-walled listing page an `AuthenticationError`).
Returns the list of pages fetched and either the final
`(total_downloaded, total_skipped)` or the propagating exception.  `fuel`
bounds the recursion; every theorem below supplies enough fuel for the
loop to reach its own exit condition.  The fixed pacing sleeps have no
observable effect here and are not modelled. -/
def download_folder (fetch : Nat → Except PyErr (List BatchItem)) (dir : String)
    (endPage : Option Nat) (premiumOnly : Bool) :
    Nat → Nat → Nat → Nat → List Nat × Except PyErr (Nat × Nat)
  | 0, _page, d, s => ([], .ok (d, s))
  | fuel + 1, page, d, s =>
    match fetch page with
    | .error .searchError => ([page], .ok (d, s))   -- logged, loop breaks
    | .error e => ([page], .error e)                -- only SearchError is caught
    | .ok results =>
      if results.isEmpty then ([page], .ok (d, s))
      else
        let filtered := if premiumOnly then results.filter (·.premium) else results
        let premSkipped := if premiumOnly then results.length - filtered.length else 0
        match download_all_from_results dir filtered none with
        | (_, .error e) => ([page], .error e)
        | (_, .ok (pd, ps)) =>
          let d1 := d + pd
          let s1 := s + premSkipped + ps
          let nextPage := page + 1
          -- `if end_page and current_page > end_page:` — 0 is falsy in Python
          let stop := match endPage with
            | some e => decide (0 < e) && decide (e < nextPage)
            | none => false
          if stop then ([page], .ok (d1, s1))
          else
            let rec_ := download_folder fetch dir endPage premiumOnly fuel nextPage d1 s1
            (page :: rec_.1, rec_.2)

end CLIHandler

/-- The 2-page crawl fixture of the spec: page 1 carries three records
that all resolve successfully, page 2 is empty. -/
def fixtureFetch : Nat → Except PyErr (List BatchItem)
  | 1 => .ok [{}, {}, {}]
  | _ => .ok []

example :
    CLIHandler.download_folder fixtureFetch "dl" none false 10 1 0 0 =
      ([1, 2], .ok (3, 0)) := rfl
example :
    CLIHandler.download_all_from_results "dl"
      [{ resolveOutcome := .error .authenticationError }] none =
      ("dl", .ok (0, 1)) := rfl

/-! ## Supporting lemmas -/

theorem takeWhile_digits_mem : ∀ (l : List Char) (c : Char),
    c ∈ List.takeWhile Char.isDigit l → c.isDigit = true := by
  intro l
  induction l with
  | nil => intro c h; simp [List.takeWhile] at h
  | cons a t ih =>
    intro c h
    rw [List.takeWhile_cons] at h
    by_cases ha : a.isDigit
    · rw [if_pos ha] at h
      rcases List.mem_cons.mp h with rfl | h2
      · exact ha
      · exact ih c h2
    · rw [if_neg ha] at h
      simp at h

theorem firstDigitRun_of_exists : ∀ (l : List Char),
    (∃ c ∈ l, c.isDigit = true) →
    ∃ run, firstDigitRun l = some run ∧ run ≠ [] ∧ ∀ c ∈ run, c.isDigit = true := by
  intro l
  induction l with
  | nil => rintro ⟨c, hc, _⟩; simp at hc
  | cons a t ih =>
    intro h
    by_cases ha : a.isDigit
    · refine ⟨List.takeWhile Char.isDigit (a :: t), by simp [firstDigitRun, ha], ?_, ?_⟩
      · simp [List.takeWhile_cons, ha]
      · exact fun c hc => takeWhile_digits_mem _ c hc
    · have h2 : ∃ c ∈ t, c.isDigit = true := by
        rcases h with ⟨c, hc, hd⟩
        rcases List.mem_cons.mp hc with rfl | hm
        · exact absurd hd ha
        · exact ⟨c, hm, hd⟩
      rcases ih h2 with ⟨run, h1, hne, hd⟩
      exact ⟨run, by simp [firstDigitRun, ha, h1], hne, hd⟩

/-! ## Claim theorems -/

/-- Claim C1, counterexample to the original statement: a batch over a
single listing record whose resolution fails with `AuthenticationError`
does not abort — the batch returns normally with the item counted as
skipped, because `DownloaderService.download` wraps the failure into
`DownloadError`, which the per-item handler catches. -/
theorem C1_counterexample :
    CLIHandler.download_all_from_results "dl"
      [{ premium := true, resolveOutcome := .error .authenticationError }] none =
      ("dl", .ok (0, 1)) := rfl

/-- Claim C1, amended: an authentication failure raised while resolving
one item of a batch is re-raised by `DownloaderService.download` as
`DownloadError`, so the batch loop catches it, counts the item as skipped
exactly like the other per-item resolution failures, and continues with
the remaining items; it does not propagate to the caller. -/
theorem C1_amended (it : BatchItem) (rest : List BatchItem) (d s : Nat)
    (h : it.resolveOutcome = .error .authenticationError) :
    DownloaderService.download it.resolveOutcome = .error .downloadError ∧
    CLIHandler.batchLoop (it :: rest) d s = CLIHandler.batchLoop rest d (s + 1) := by
  constructor
  · rw [h]; rfl
  · rw [CLIHandler.batchLoop, h]; rfl

/-- Witness for C1_amended at a concrete item. -/
theorem C1_witness :
    DownloaderService.download
        (BatchItem.resolveOutcome { resolveOutcome := .error .authenticationError }) =
      .error .downloadError ∧
    CLIHandler.batchLoop [{ resolveOutcome := .error .authenticationError }] 0 0 =
      CLIHandler.batchLoop [] 0 (0 + 1) :=
  C1_amended { resolveOutcome := .error .authenticationError } [] 0 0 rfl

/-- Claim C2, counterexample to the original statement: a container whose
title resolves (via the `span.title` fallback) but whose URL selectors all
fail yields no record — the parse of a page holding only this container
returns the empty list, not a one-record list. -/
theorem C2_counterexample :
    (SearchService.titleElement { spanTitle := some { text := "Film" } }).isSome = true ∧
    SearchService.parse_search_results
        { loginWall := false, containers := [{ spanTitle := some { text := "Film" } }] } =
      .ok [] := ⟨rfl, rfl⟩

/-- Claim C2, amended: on a listing page without the login-wall marker the
parse never fails and returns, in document order, one record per container
for which both a title and a URL resolve through the fallback selector
lists; a container missing either one (not merely both) is dropped. -/
theorem C2_amended :
    (∀ cs : List Container,
      SearchService.parse_search_results { loginWall := false, containers := cs } =
        .ok (cs.filterMap SearchService.parseElement)) ∧
    (∀ c : Container, (SearchService.parseElement c).isSome ↔
      (SearchService.titleElement c).isSome ∧ (SearchService.urlElement c).isSome) := by
  constructor
  · intro cs; rfl
  · intro c
    cases ht : SearchService.titleElement c <;> cases hu : SearchService.urlElement c <;>
      simp [SearchService.parseElement, ht, hu]

/-- Claim C3, counterexample to the original statement: the fixed table is
scanned in insertion order and `"hd"` is a substring of `"fhd"`, so the
digit-free label `"FHD"` ranks 720, not 1080. -/
theorem C3_counterexample :
    parse_quality_from_string "FHD" ≠ parse_quality_from_string "1080p" ∧
    parse_quality_from_string "FHD" = 720 := by decide

/-- Claim C3, amended: a label containing a decimal digit ranks as the
value of its first digit run regardless of surrounding text, case or
symbols; digit-free labels go through the fixed containment table in
insertion order, so `rank "FHD" = 720` (the `"hd"` entry matches first)
while `rank "1080p" = 1080`, and the unrecognized `"mystery"` ranks 0. -/
theorem C3_amended :
    (∀ q : String, (∃ c ∈ q.toList, c.isDigit = true) →
      ∃ run, firstDigitRun q.toList = some run ∧ run ≠ [] ∧
        (∀ c ∈ run, c.isDigit = true) ∧
        parse_quality_from_string q = natOfDigits run) ∧
    parse_quality_from_string "FHD" = 720 ∧
    parse_quality_from_string "1080p" = 1080 ∧
    parse_quality_from_string "mystery" = 0 := by
  refine ⟨?_, by decide, by decide, by decide⟩
  intro q h
  rcases firstDigitRun_of_exists q.toList h with ⟨run, h1, hne, hd⟩
  exact ⟨run, h1, hne, hd, by
    unfold parse_quality_from_string
    rw [h1]⟩

/-- Witness for C3_amended at a concrete label with surrounding text. -/
theorem C3_witness :
    ∃ run, firstDigitRun "x264code".toList = some run ∧ run ≠ [] ∧
      (∀ c ∈ run, c.isDigit = true) ∧
      parse_quality_from_string "x264code" = natOfDigits run :=
  C3_amended.1 "x264code" ⟨'2', by decide, by decide⟩

/-- Claim C8: a batch download leaves the shared download-directory
configuration exactly as it found it, on every exit path — the override,
when present, is installed after saving the original and the `finally`
block restores the saved value whether the loop returns or raises. -/
theorem C8_download_dir_restored (dir : String) (items : List BatchItem)
    (override : Option String) :
    (CLIHandler.download_all_from_results dir items override).1 = dir := by
  unfold CLIHandler.download_all_from_results
  cases override <;> by_cases h : items.isEmpty = true <;> simp [h]

/-- Claim C9: a logout attempted while authenticated whose HTTP request
fails with a transport error returns `false` and leaves the state exactly
as it was — still logged in, username preserved. -/
theorem C9_logout_transport_failure (st : AuthState) (h : st.logged_in = true) :
    AuthService.logout st (.error ()) = (st, false) := by
  simp [AuthService.logout, h]

/-- Witness for C9 at a concrete authenticated state. -/
theorem C9_witness :
    AuthService.logout ⟨true, some "alice"⟩ (.error ()) = (⟨true, some "alice"⟩, false) :=
  C9_logout_transport_failure ⟨true, some "alice"⟩ rfl

/-- Claim C10: a login attempted while already authenticated returns
`true` immediately for any credentials — even failing token or transport
outcomes are never consulted — and leaves the state unchanged. -/
theorem C10_login_idempotent (st : AuthState) (user password : String)
    (tokenRes postRes : Except Unit String) (h : st.logged_in = true) :
    AuthService.login st user password tokenRes postRes = .ok (st, true) := by
  simp [AuthService.login, h]

/-- Witness for C10 with credentials differing from the recorded identity
and failing request outcomes. -/
theorem C10_witness :
    AuthService.login ⟨true, some "bob"⟩ "alice" "otherpw" (.error ()) (.error ()) =
      .ok (⟨true, some "bob"⟩, true) :=
  C10_login_idempotent ⟨true, some "bob"⟩ "alice" "otherpw" (.error ()) (.error ()) rfl

/-- Claim C6: a login from the anonymous state that obtains a token and a
response succeeds — returning `true` with `logged_in` set and the identity
recorded — exactly when the response body contains both the premium marker
and the supplied username as case-insensitive substrings; otherwise it
returns `false` without raising and the state stays anonymous. -/
theorem C6_login_from_anonymous (user password tok body : String) :
    (AuthService.login anonymous user password (.ok tok) (.ok body) =
        .ok (⟨true, some user⟩, true) ↔ AuthService.LoginOk body user) ∧
    (AuthService.login anonymous user password (.ok tok) (.ok body) =
        .ok (anonymous, false) ↔ ¬ AuthService.LoginOk body user) := by
  have hb := AuthService.loginSuccessCheck_iff body user
  by_cases h : AuthService.loginSuccessCheck body user = true
  · have hok := hb.mp h
    constructor
    · simp only [AuthService.login, anonymous, h]
      simp [hok]
    · simp only [AuthService.login, anonymous, h]
      simp [hok]
  · have hnot : ¬ AuthService.LoginOk body user := fun hc => h (hb.mpr hc)
    constructor
    · simp only [AuthService.login, anonymous, h]
      simp [hnot]
    · simp only [AuthService.login, anonymous, h]
      simp [hnot]

/-- Item loop accounting: a normal return of the loop increments the two
counters by exactly the number of items processed. -/
theorem batchLoop_counts : ∀ (items : List BatchItem) (d s pd ps : Nat),
    CLIHandler.batchLoop items d s = .ok (pd, ps) → pd + ps = d + s + items.length := by
  intro items
  induction items with
  | nil =>
    intro d s pd ps h
    simp only [CLIHandler.batchLoop, Except.ok.injEq, Prod.mk.injEq] at h
    obtain ⟨h1, h2⟩ := h
    simp [← h1, ← h2]
  | cons it rest ih =>
    intro d s pd ps h
    rw [CLIHandler.batchLoop] at h
    split at h
    · have := ih (d + 1) s pd ps h
      simp only [List.length_cons]
      omega
    · split at h
      · have := ih d (s + 1) pd ps h
        simp only [List.length_cons]
        omega
      · exact absurd h (by simp)

/-- Item loop on all-successful items: everything is counted downloaded. -/
theorem batchLoop_all_ok : ∀ (items : List BatchItem) (d s : Nat),
    (∀ it ∈ items, it.resolveOutcome = .ok ()) →
    CLIHandler.batchLoop items d s = .ok (d + items.length, s) := by
  intro items
  induction items with
  | nil => intro d s _; simp [CLIHandler.batchLoop]
  | cons it rest ih =>
    intro d s h
    have h1 : it.resolveOutcome = .ok () := h it (by simp)
    have h2 := ih (d + 1) s (fun x hx => h x (by simp [hx]))
    rw [CLIHandler.batchLoop, h1]
    dsimp only [DownloaderService.download]
    rw [h2]
    have h3 : d + 1 + rest.length = d + (it :: rest).length := by
      simp only [List.length_cons]
      omega
    rw [h3]

/-- Claim C7: the folder crawl terminates when a fetched page is empty or
when the (truthy) end page is exceeded; every dispatched record is counted
exactly once, so a loop pass returning `(pd, ps)` accounts for all items;
on the fixed 2-page fixture (3 records then 0, all resolving) the crawl
fetches pages 1 and 2 and finishes with downloaded + skipped = 3 + 0. -/
theorem C7_crawl :
    (∀ (items : List BatchItem) (d s pd ps : Nat),
      CLIHandler.batchLoop items d s = .ok (pd, ps) → pd + ps = d + s + items.length) ∧
    (∀ (fetch : Nat → Except PyErr (List BatchItem)) (dir : String)
        (endPage : Option Nat) (premiumOnly : Bool) (fuel page d s : Nat),
      fetch page = .ok [] →
      CLIHandler.download_folder fetch dir endPage premiumOnly (fuel + 1) page d s =
        ([page], .ok (d, s))) ∧
    (∀ (fetch : Nat → Except PyErr (List BatchItem)) (dir : String)
        (fuel page d s e : Nat) (items : List BatchItem),
      fetch page = .ok items → items ≠ [] →
      (∀ it ∈ items, it.resolveOutcome = .ok ()) →
      0 < e → e ≤ page →
      CLIHandler.download_folder fetch dir (some e) false (fuel + 1) page d s =
        ([page], .ok (d + items.length, s))) ∧
    CLIHandler.download_folder fixtureFetch "dl" none false 10 1 0 0 =
      ([1, 2], .ok (3, 0)) := by
  refine ⟨batchLoop_counts, ?_, ?_, rfl⟩
  · intro fetch dir endPage premiumOnly fuel page d s h
    rw [CLIHandler.download_folder, h]
    rfl
  · intro fetch dir fuel page d s e items hf hne hok he1 he2
    have hne2 : items.isEmpty = false := by
      cases items with
      | nil => exact absurd rfl hne
      | cons a t => rfl
    have hbl := batchLoop_all_ok items 0 0 hok
    have hstop : (decide (0 < e) && decide (e < page + 1)) = true := by
      rw [decide_eq_true he1, decide_eq_true (by omega : e < page + 1)]
      rfl
    rw [CLIHandler.download_folder, hf]
    simp only [hne2, Bool.false_eq_true, if_false, CLIHandler.download_all_from_results, hbl,
      hstop, if_true, Nat.zero_add, Nat.add_zero]

/-- Witness for C7_crawl: the end-page exit applied to the fixture with
`end_page = 1`. -/
theorem C7_witness :
    CLIHandler.download_folder fixtureFetch "dl" (some 1) false 5 1 0 0 =
      ([1], .ok (0 + [({} : BatchItem), {}, {}].length, 0)) :=
  C7_crawl.2.2.1 fixtureFetch "dl" 4 1 0 0 1 [{}, {}, {}] rfl (by decide) (by decide)
    (by decide) (by decide)

/-- Dict lookup: with unique keys, membership of a pair determines the
lookup result. -/
theorem dictLookup_of_mem_nodup : ∀ (links : List (String × String)) (p u : String),
    (links.map Prod.fst).Nodup → (p, u) ∈ links → dictLookup links p = some u := by
  intro links
  induction links with
  | nil => intro p u _ hm; simp at hm
  | cons a rest ih =>
    intro p u hnd hm
    rw [List.map_cons] at hnd
    obtain ⟨hnotin, hnd2⟩ := List.nodup_cons.mp hnd
    rcases List.mem_cons.mp hm with rfl | hm2
    · simp [dictLookup, List.find?]
    · have hne : a.1 ≠ p := fun he =>
        hnotin (by rw [he]; exact List.mem_map.mpr ⟨(p, u), hm2, rfl⟩)
      unfold dictLookup
      rw [List.find?_cons_of_neg _ (by simpa using hne)]
      exact ih p u hnd2 hm2

/-- Dict lookup fails for absent keys. -/
theorem dictLookup_eq_none : ∀ (links : List (String × String)) (p : String),
    p ∉ links.map Prod.fst → dictLookup links p = none := by
  intro links p h
  unfold dictLookup
  rw [List.find?_eq_none.mpr]
  · rfl
  · intro x hx
    simp only [beq_iff_eq]
    intro he
    exact h (List.mem_map.mpr ⟨x, hx, he⟩)

/-- List search over a decomposition whose prefix has no match and whose pivot
matches returns the pivot. -/
theorem find?_first_match : ∀ (pre : List (String × String)) (q : String × String)
    (post : List (String × String)) (pred : String × String → Bool),
    (∀ r ∈ pre, pred r = false) → pred q = true →
    List.find? pred (pre ++ q :: post) = some q := by
  intro pre
  induction pre with
  | nil => intro q post pred _ hq; simpa using List.find?_cons_of_pos post hq
  | cons r0 rest ih =>
    intro q post pred hpre hq
    rw [List.cons_append, List.find?_cons_of_neg]
    · exact ih q post pred (fun r hr => hpre r (by simp [hr])) hq
    · simp [hpre r0 (by simp)]

/-- Claim C5: with a non-empty preferred label, selection returns the
exact dict entry when the label is a key; otherwise the first entry whose
label contains it as a substring; otherwise (and with no preference) it
falls back to `get_best_quality`.  On the two-entry example the substring
path picks `("720p", "a")`, and on the empty map every preference fails
with `VideoInfoError`. -/
theorem C5_select_quality :
    (∀ (links : List (String × String)) (p u : String), p ≠ "" →
      (links.map Prod.fst).Nodup → (p, u) ∈ links →
      DownloaderService.select_quality links (some p) = .ok (p, u)) ∧
    (∀ (pre post : List (String × String)) (q : String × String) (p : String), p ≠ "" →
      p ∉ (pre ++ q :: post).map Prod.fst →
      (∀ r ∈ pre, ¬ Substr p.toList r.1.toList) →
      Substr p.toList q.1.toList →
      DownloaderService.select_quality (pre ++ q :: post) (some p) = .ok q) ∧
    (∀ (links : List (String × String)) (p : String), p ≠ "" →
      p ∉ links.map Prod.fst →
      (∀ r ∈ links, ¬ Substr p.toList r.1.toList) →
      DownloaderService.select_quality links (some p) = get_best_quality links) ∧
    (∀ links : List (String × String),
      DownloaderService.select_quality links none = get_best_quality links) ∧
    DownloaderService.select_quality [("720p", "a"), ("1080p", "b")] (some "720") =
      .ok ("720p", "a") ∧
    (∀ p : Option String,
      DownloaderService.select_quality [] p = .error .videoInfoError) := by
  refine ⟨?_, ?_, ?_, fun links => rfl, rfl, ?_⟩
  · intro links p u hp hnd hm
    rw [DownloaderService.select_quality, if_neg hp,
      dictLookup_of_mem_nodup links p u hnd hm]
  · intro pre post q p hp hnot hpre hq
    rw [DownloaderService.select_quality, if_neg hp, dictLookup_eq_none _ _ hnot,
      find?_first_match pre q post _
        (fun r hr => (containsSub_eq_false_iff _ _).mpr (hpre r hr))
        ((containsSub_iff _ _).mpr hq)]
  · intro links p hp hnot hnone
    rw [DownloaderService.select_quality, if_neg hp, dictLookup_eq_none _ _ hnot,
      List.find?_eq_none.mpr]
    intro x hx
    rw [(containsSub_eq_false_iff p.toList x.1.toList).mpr (hnone x hx)]
    simp
  · intro p
    cases p with
    | none => rfl
    | some p =>
      rw [DownloaderService.select_quality]
      by_cases hp : p = ""
      · rw [if_pos hp]; rfl
      · rw [if_neg hp]
        rfl

/-- Witness for C5_select_quality: the exact-match branch on a concrete
singleton map. -/
theorem C5_witness :
    DownloaderService.select_quality [("720p", "a")] (some "720p") = .ok ("720p", "a") :=
  C5_select_quality.1 [("720p", "a")] "720p" "a" (by decide) (by decide) (by decide)

/-- One step of tracking the head of the descending stable insertion
sort: the head after inserting `x` is `x` exactly when `x` strictly beats
the current head. -/
def pairStep (acc : Option (String × Nat)) (x : String × Nat) : Option (String × Nat) :=
  match acc with
  | none => some x
  | some m => if m.2 < x.2 then some x else some m

theorem insertFold_head : ∀ (l acc : List (String × Nat)),
    (l.foldl (fun a x => insertDesc x a) acc).head? = l.foldl pairStep acc.head? := by
  intro l
  induction l with
  | nil => intro acc; rfl
  | cons x xs ih =>
    intro acc
    rw [List.foldl_cons, List.foldl_cons, ih]
    congr 1
    cases acc with
    | nil => rfl
    | cons y ys =>
      show (insertDesc x (y :: ys)).head? = pairStep (some y) x
      rw [insertDesc, pairStep]
      by_cases h : y.2 < x.2
      · rw [if_pos h, if_pos h]; rfl
      · rw [if_neg h, if_neg h]; rfl

theorem pairFold_some : ∀ (xs : List (String × Nat)) (m : String × Nat),
    ∃ r, xs.foldl pairStep (some m) = some r := by
  intro xs
  induction xs with
  | nil => intro m; exact ⟨m, rfl⟩
  | cons x xs ih =>
    intro m
    rw [List.foldl_cons, pairStep]
    by_cases h : m.2 < x.2
    · rw [if_pos h]; exact ih x
    · rw [if_neg h]; exact ih m

/-- The accumulator fold computes the first maximum: its result bounds
every element, sits in the list, and strictly beats everything before it. -/
theorem pairFold_firstMax : ∀ (xs : List (String × Nat)) (m r : String × Nat),
    xs.foldl pairStep (some m) = some r →
    (∀ x ∈ m :: xs, x.2 ≤ r.2) ∧
    ∃ pre post, m :: xs = pre ++ r :: post ∧ ∀ x ∈ pre, x.2 < r.2 := by
  intro xs
  induction xs with
  | nil =>
    intro m r h
    simp only [List.foldl_nil, Option.some.injEq] at h
    subst h
    exact ⟨by simp, [], [], rfl, by simp⟩
  | cons x xs ih =>
    intro m r h
    rw [List.foldl_cons, pairStep] at h
    by_cases hx : m.2 < x.2
    · rw [if_pos hx] at h
      obtain ⟨hmax, pre, post, hdec, hpre⟩ := ih x r h
      have hxr : x.2 ≤ r.2 := hmax x (by simp)
      refine ⟨?_, m :: pre, post, ?_, ?_⟩
      · intro y hy
        rcases List.mem_cons.mp hy with rfl | hy2
        · omega
        · exact hmax y hy2
      · rw [List.cons_append, ← hdec]
      · intro y hy
        rcases List.mem_cons.mp hy with rfl | hy2
        · omega
        · exact hpre y hy2
    · rw [if_neg hx] at h
      obtain ⟨hmax, pre, post, hdec, hpre⟩ := ih m r h
      have hmr : m.2 ≤ r.2 := hmax m (by simp)
      have hxm : x.2 ≤ m.2 := by omega
      cases pre with
      | nil =>
        obtain ⟨heq, hxs⟩ := List.cons_eq_cons.mp (by simpa using hdec)
        refine ⟨?_, [], x :: xs, by rw [heq]; rfl, by simp⟩
        intro y hy
        rcases List.mem_cons.mp hy with rfl | hy2
        · exact hmr
        rcases List.mem_cons.mp hy2 with rfl | hy3
        · omega
        · exact hmax y (by simp [hy3])
      | cons p0 pre2 =>
        obtain ⟨heq, hxs⟩ := List.cons_eq_cons.mp (by simpa using hdec)
        have hm_lt : m.2 < r.2 := by
          have := hpre p0 (by simp)
          rw [heq]
          omega
        refine ⟨?_, m :: x :: pre2, post, ?_, ?_⟩
        · intro y hy
          rcases List.mem_cons.mp hy with rfl | hy2
          · exact hmr
          rcases List.mem_cons.mp hy2 with rfl | hy3
          · omega
          · exact hmax y (by simp [hy3])
        · simp [hxs]
        · intro y hy
          rcases List.mem_cons.mp hy with rfl | hy2
          · exact hm_lt
          rcases List.mem_cons.mp hy2 with rfl | hy3
          · omega
          · exact hpre y (by simp [hy3])

/-- A decomposition of a mapped list lifts to the original list. -/
theorem map_decomp {α β : Type} (f : α → β) :
    ∀ (pre : List β) (l : List α) (b : β) (post : List β),
    l.map f = pre ++ b :: post →
    ∃ preL x postL, l = preL ++ x :: postL ∧ f x = b ∧
      preL.map f = pre ∧ postL.map f = post := by
  intro pre
  induction pre with
  | nil =>
    intro l b post h
    cases l with
    | nil => simp at h
    | cons x xs =>
      rw [List.map_cons, List.nil_append] at h
      obtain ⟨h1, h2⟩ := List.cons_eq_cons.mp h
      exact ⟨[], x, xs, rfl, h1, rfl, h2⟩
  | cons p0 pre2 ih =>
    intro l b post h
    cases l with
    | nil => simp at h
    | cons x xs =>
      rw [List.map_cons, List.cons_append] at h
      obtain ⟨h1, h2⟩ := List.cons_eq_cons.mp h
      obtain ⟨preL, y, postL, e1, e2, e3, e4⟩ := ih xs b post h2
      exact ⟨x :: preL, y, postL, by rw [List.cons_append, ← e1], e2,
        by rw [List.map_cons, h1, e3], e4⟩

/-- Dict lookup over a decomposition whose earlier entries have other
keys returns the pivot entry. -/
theorem dictLookup_append_first (pre : List (String × String)) (q : String × String)
    (post : List (String × String)) (h : ∀ r ∈ pre, r.1 ≠ q.1) :
    dictLookup (pre ++ q :: post) q.1 = some q.2 := by
  unfold dictLookup
  rw [find?_first_match pre q post _ (fun r hr => by simp [h r hr]) (by simp)]
  rfl

/-- Claim C4: on the empty quality map `get_best_quality` fails with
`VideoInfoError`; on a non-empty map it returns an entry of the map whose
rank is maximal, and every entry placed before it in the map's iteration
order has strictly smaller rank — ties go to the first entry encountered. -/
theorem C4_best_quality :
    get_best_quality [] = .error PyErr.videoInfoError ∧
    ∀ links : List (String × String), links ≠ [] →
      ∃ l u pre post, get_best_quality links = .ok (l, u) ∧
        links = pre ++ (l, u) :: post ∧
        (∀ p ∈ links, parse_quality_from_string p.1 ≤ parse_quality_from_string l) ∧
        ∀ p ∈ pre, parse_quality_from_string p.1 < parse_quality_from_string l := by
  constructor
  · rfl
  · intro links hne
    cases links with
    | nil => exact absurd rfl hne
    | cons l0 rest =>
      have hpairs : ((l0 :: rest).map Prod.fst).map
            (fun q => (q, parse_quality_from_string q)) =
          (l0 :: rest).map (fun p => (p.1, parse_quality_from_string p.1)) := by
        rw [List.map_map]; rfl
      obtain ⟨r, hr⟩ :=
        pairFold_some (rest.map fun p => (p.1, parse_quality_from_string p.1))
          (l0.1, parse_quality_from_string l0.1)
      obtain ⟨hmax, pre, post, hdec, hpre⟩ :=
        pairFold_firstMax _ _ r hr
      obtain ⟨preL, pm, postL, e1, e2, e3, e4⟩ :=
        map_decomp (fun p => (p.1, parse_quality_from_string p.1))
          pre (l0 :: rest) r post (by rw [List.map_cons]; exact hdec)
      have hr1 : r.1 = pm.1 := by rw [← e2]
      have hrr : r.2 = parse_quality_from_string r.1 := by rw [← e2]
      have hpm : pm = (r.1, pm.2) := by rw [hr1]
      have hsort : (sort_qualities ((l0 :: rest).map Prod.fst)).head? = some r.1 := by
        unfold sort_qualities
        rw [List.head?_map, insertFold_head, hpairs, List.map_cons, List.foldl_cons]
        show Option.map Prod.fst
            ((rest.map fun p => (p.1, parse_quality_from_string p.1)).foldl pairStep
              (some (l0.1, parse_quality_from_string l0.1))) = some r.1
        rw [hr]
        rfl
      obtain ⟨tail, htail⟩ : ∃ t,
          sort_qualities ((l0 :: rest).map Prod.fst) = r.1 :: t := by
        cases hs : sort_qualities ((l0 :: rest).map Prod.fst) with
        | nil => rw [hs] at hsort; simp at hsort
        | cons b t =>
          rw [hs] at hsort
          have hb : b = r.1 := by simpa using hsort
          exact ⟨t, by rw [hb]⟩
      have hkeyne : ∀ x ∈ preL, x.1 ≠ pm.1 := by
        intro x hx he
        have hgx : (x.1, parse_quality_from_string x.1) ∈ pre := by
          rw [← e3]; exact List.mem_map.mpr ⟨x, hx, rfl⟩
        have hlt := hpre _ hgx
        simp only at hlt
        rw [he, ← hr1, ← hrr] at hlt
        omega
      have hlook : dictLookup (l0 :: rest) r.1 = some pm.2 := by
        rw [e1, hr1]
        exact dictLookup_append_first preL pm postL hkeyne
      have hbest : get_best_quality (l0 :: rest) = .ok (r.1, pm.2) := by
        unfold get_best_quality
        rw [if_neg (by simp), htail]
        show (match dictLookup (l0 :: rest) r.1 with
          | some url => Except.ok (r.1, url)
          | none => Except.error PyErr.keyError) = Except.ok (r.1, pm.2)
        rw [hlook]
      refine ⟨r.1, pm.2, preL, postL, hbest, ?_, ?_, ?_⟩
      · rw [e1, ← hpm]
      · intro p hp
        have hm : (p.1, parse_quality_from_string p.1) ∈
            (l0.1, parse_quality_from_string l0.1) ::
              (rest.map fun q => (q.1, parse_quality_from_string q.1)) := by
          have := List.mem_map.mpr
            (⟨p, hp, rfl⟩ :
              ∃ a ∈ l0 :: rest, (fun q => (q.1, parse_quality_from_string q.1)) a =
                (p.1, parse_quality_from_string p.1))
          rwa [List.map_cons] at this
        have hle := hmax _ hm
        simp only at hle
        rwa [hrr] at hle
      · intro p hp
        have hgx : (p.1, parse_quality_from_string p.1) ∈ pre := by
          rw [← e3]; exact List.mem_map.mpr ⟨p, hp, rfl⟩
        have hlt := hpre _ hgx
        simp only at hlt
        rwa [hrr] at hlt

/-- Witness for C4_best_quality on a concrete three-entry map with a rank
tie between the second and third entries. -/
theorem C4_witness :
    ∃ l u pre post,
      get_best_quality [("480p", "a"), ("720", "b"), ("720p", "c")] = .ok (l, u) ∧
      [("480p", "a"), ("720", "b"), ("720p", "c")] = pre ++ (l, u) :: post ∧
      (∀ p ∈ [("480p", "a"), ("720", "b"), ("720p", "c")],
        parse_quality_from_string p.1 ≤ parse_quality_from_string l) ∧
      ∀ p ∈ pre, parse_quality_from_string p.1 < parse_quality_from_string l :=
  C4_best_quality.2 [("480p", "a"), ("720", "b"), ("720p", "c")] (by decide)
